import Mathlib

/-!
Verification of the translation resource bundling & interchange engine of
vscode-nls-dev (src/main.ts) against its natural-language specification.

The TypeScript source is shallowly embedded: JavaScript strings become Lean
`String`s (operated on through their character lists so that every definition
is executable and kernel-reducible), JavaScript string-keyed objects become
insertion-ordered association lists, thrown exceptions and promise rejections
become `Except String`, and the file-system `glob.sync` count is an injected
`Nat` parameter (the count is an external input of the aggregation logic).
-/

/-- JavaScript `Array.prototype.join(sep)`: the empty array joins to `""`,
a singleton joins to its element, otherwise elements are interleaved with
the separator.  Used for `buffer.join('\r\n')`, `result.join('')` and
`comment.join('\r\n')` in the source. -/
def joinSep (sep : String) : List String → String
  | [] => ""
  | [a] => a
  | a :: rest => a ++ sep ++ joinSep sep rest

/-- JavaScript object property write `m[k] = v` for string-keyed objects:
overwrites in place when the key exists (keeping its insertion position),
otherwise appends at the end (JS objects preserve insertion order for
non-numeric string keys, which is what the source relies upon). -/
def setAssoc (m : List (String × α)) (k : String) (v : α) : List (String × α) :=
  if m.any (fun p => p.1 = k) then
    m.map (fun p => if p.1 = k then (k, v) else p)
  else
    m ++ [(k, v)]

/-- JavaScript object property read `m[k]`, `undefined` becoming `none`. -/
def lookupAssoc (m : List (String × α)) (k : String) : Option α :=
  match m.find? (fun p => p.1 = k) with
  | some p => some p.2
  | none => none

/-- `true` exactly on error results; promise rejections and thrown
exceptions are both modelled as `Except.error`. -/
def isErr : Except String α → Bool
  | Except.error _ => true
  | Except.ok _ => false

instance {ε α : Type} [DecidableEq ε] [DecidableEq α] : DecidableEq (Except ε α) := fun x y =>
  match x, y with
  | Except.error a, Except.error b =>
    if h : a = b then Decidable.isTrue (by rw [h])
    else Decidable.isFalse (fun hc => h (by cases hc; rfl))
  | Except.ok a, Except.ok b =>
    if h : a = b then Decidable.isTrue (by rw [h])
    else Decidable.isFalse (fun hc => h (by cases hc; rfl))
  | Except.error _, Except.ok _ => Decidable.isFalse (fun hc => Except.noConfusion hc)
  | Except.ok _, Except.error _ => Decidable.isFalse (fun hc => Except.noConfusion hc)

/-- JavaScript falsiness of a possibly-undefined string: `undefined` and
`""` are falsy, every other string is truthy. -/
def jsFalsyOpt : Option String → Bool
  | none => true
  | some s => s = ""

/-- src/main.ts: `encodeEntities`, one output fragment per input character
(the source pushes the fragments into an array and joins with `''`). -/
def encodeChars : List Char → List Char
  | [] => []
  | c :: rest =>
    (if c = '<' then "&lt;".data
     else if c = '>' then "&gt;".data
     else if c = '&' then "&amp;".data
     else [c]) ++ encodeChars rest

/-- src/main.ts lines 975-994: `encodeEntities(value)`. -/
def encodeEntities (value : String) : String :=
  String.mk (encodeChars value.data)

/-- JavaScript `value.replace(/pat/g, rep)` for a literal pattern: replace
all non-overlapping occurrences left to right.  Implemented with explicit
fuel (one unit per consumed character) so the definition is structurally
recursive and kernel-evaluable; callers pass the input length as fuel,
which always suffices because each step consumes at least one character. -/
def replaceFuel (pat rep : List Char) : Nat → List Char → List Char
  | _, [] => []
  | 0, l => l
  | Nat.succ n, c :: rest =>
    if pat ≠ [] ∧ pat.isPrefixOf (c :: rest) then
      rep ++ replaceFuel pat rep n ((c :: rest).drop pat.length)
    else
      c :: replaceFuel pat rep n rest

/-- JavaScript `s.replace(/pat/g, rep)` (global literal replacement). -/
def jsReplaceAll (s pat rep : String) : String :=
  String.mk (replaceFuel pat.data rep.data s.data.length s.data)

/-- src/main.ts lines 996-998: `decodeEntities(value)` is the chain
`value.replace(/&lt;/g, '<').replace(/&gt;/g, '>').replace(/&amp;/g, '&')`. -/
def decodeEntities (value : String) : String :=
  jsReplaceAll (jsReplaceAll (jsReplaceAll value "&lt;" "<") "&gt;" ">") "&amp;" "&"

/-! ## The XLIFF document model (class `XLF`, src/main.ts lines 282-361) -/

/-- An element of the `keys` array handed to `XLF.addFile`: either a plain
string id, or a `LocalizeInfo` object `{key, comment[]}` (an absent or
empty comment array is represented by `[]`, both being skipped by the
`key['comment'] && key['comment'].length > 0` test in the source). -/
inductive NlsKey
  | str (s : String)
  | info (key : String) (comment : List String)
deriving DecidableEq, Repr

/-- src/main.ts lines 174-178: interface `Item`. -/
structure Item where
  id : String
  message : String
  comment : Option String
deriving DecidableEq, Repr

/-- JavaScript `keys.indexOf(key)` for a plain-string `key`: strings
compare by value under `===`, while a `LocalizeInfo` object is a distinct
object from any string, so only `str` entries can match.  `none` models
the `-1` result. -/
def jsIndexOfStr (k : String) : List NlsKey → Option Nat
  | [] => none
  | NlsKey.str s :: rest =>
    if s = k then some 0 else (jsIndexOfStr k rest).map (· + 1)
  | NlsKey.info _ _ :: rest => (jsIndexOfStr k rest).map (· + 1)

/-- JavaScript `messages[i]` where `i` may be `-1` (`none`): out-of-range
and negative indices read as `undefined`. -/
def msgAt (messages : List String) : Option Nat → Option String
  | none => none
  | some i => messages.get? i

/-- JavaScript `encodeEntities(v)` applied to a possibly-`undefined`
value: `undefined.length` in the loop header throws a `TypeError`. -/
def encodeEntitiesJS : Option String → Except String String
  | none => Except.error "TypeError: cannot read property length of undefined"
  | some s => Except.ok (encodeEntities s)

/-- The loop body of `XLF.addFile` (src/main.ts lines 310-330), walking the
decreasing suffix of `keys`; `i` is the absolute position of the suffix
head in `keys` and `seen` holds the plain-string ids pushed onto
`existingKeys` so far (`LocalizeInfo` objects are also pushed in the
source, but as fresh objects they can never satisfy a later `===`
comparison, so they are omitted from `seen`).  For a plain-string key the
message index is `keys.indexOf(key)` (first occurrence); for an object key
`===` finds the object itself, i.e. the current position `i`. -/
def addFileItemsGo (keys : List NlsKey) (messages : List String) :
    Nat → List NlsKey → List String → Except String (List Item)
  | _, [], _ => Except.ok []
  | i, NlsKey.str k :: rest, seen =>
    if seen.contains k then
      addFileItemsGo keys messages (i + 1) rest seen
    else
      match encodeEntitiesJS (msgAt messages (jsIndexOfStr k keys)) with
      | Except.error e => Except.error e
      | Except.ok message =>
        match addFileItemsGo keys messages (i + 1) rest (seen ++ [k]) with
        | Except.error e => Except.error e
        | Except.ok items =>
          Except.ok ({ id := k, message := message, comment := none } :: items)
  | i, NlsKey.info key comments :: rest, seen =>
    match encodeEntitiesJS (msgAt messages (some i)) with
    | Except.error e => Except.error e
    | Except.ok message =>
      let comment : Option String :=
        if comments.isEmpty then none
        else some (joinSep "\r\n" (comments.map encodeEntities))
      match addFileItemsGo keys messages (i + 1) rest seen with
      | Except.error e => Except.error e
      | Except.ok items =>
        Except.ok ({ id := key, message := message, comment := comment } :: items)

/-- The item list built by one `XLF.addFile` call. -/
def addFileItems (keys : List NlsKey) (messages : List String) :
    Except String (List Item) :=
  addFileItemsGo keys messages 0 keys []

/-- src/main.ts lines 282-289: class `XLF` state — the output line buffer
(mutated by `toString` and never cleared) and the insertion-ordered map
from original file path to items. -/
structure XLF where
  project : String
  buffer : List String
  files : List (String × List Item)
deriving DecidableEq, Repr

/-- `new XLF(project)` (src/main.ts lines 286-289). -/
def XLF.new (project : String) : XLF :=
  { project := project, buffer := [], files := [] }

/-- src/main.ts lines 306-331: `XLF.addFile(original, keys, messages)`.
`this.files[original] = []` makes the last write for a path win; the loop
then pushes the deduplicated items. -/
def XLF.addFile (x : XLF) (original : String) (keys : List NlsKey)
    (messages : List String) : Except String XLF :=
  match addFileItems keys messages with
  | Except.error e => Except.error e
  | Except.ok items => Except.ok { x with files := setAssoc x.files original items }

/-- src/main.ts lines 251-268: class `Line` — `new Line(indent)` starts
the buffer with `indent` spaces (`new Array(indent + 1).join(' ')`),
`append` adds the content, `toString` joins. -/
def lineStr (indent : Nat) (content : String) : String :=
  String.mk (List.replicate indent ' ') ++ content

/-- src/main.ts lines 333-346: `addStringItem(item)` — the lines pushed
for one trans-unit (the id/message emptiness check at line 334 has an
empty body in the source, so it has no effect). -/
def addStringItemLines (item : Item) : List String :=
  [lineStr 4 ("<trans-unit id=\"" ++ item.id ++ "\">"),
   lineStr 6 ("<source xml:lang=\"en\">" ++ item.message ++ "</source>")]
  ++ (match item.comment with
      | some c => [lineStr 6 ("<note>" ++ c ++ "</note>")]
      | none => [])
  ++ [lineStr 4 "</trans-unit>"]

/-- The lines appended to the buffer by one `XLF.toString` call: header
(lines 348-351), one file block per entry of `files` in insertion order
(lines 294-300), footer (lines 353-355). -/
def xlfEmittedLines (x : XLF) : List String :=
  [lineStr 0 "<?xml version=\"1.0\" encoding=\"utf-8\"?>",
   lineStr 0 "<xliff version=\"1.2\" xmlns=\"urn:oasis:names:tc:xliff:document:1.2\">"]
  ++ (x.files.map (fun f =>
        [lineStr 2 ("<file original=\"" ++ f.1
          ++ "\" source-language=\"en\" datatype=\"plaintext\"><body>")]
        ++ (f.2.map addStringItemLines).flatten
        ++ [lineStr 2 "</body></file>"])).flatten
  ++ [lineStr 0 "</xliff>"]

/-- src/main.ts lines 291-304: `XLF.toString()` appends header, file
blocks and footer to the instance buffer (which it never clears) and
returns `this.buffer.join('\r\n')`; the updated instance is returned
alongside the string. -/
def XLF.toString (x : XLF) : XLF × String :=
  let b := x.buffer ++ xlfEmittedLines x
  ({ x with buffer := b }, joinSep "\r\n" b)

/-! ## Resource classification (`getResource`, src/main.ts lines 473-499) -/

/-- JavaScript `s.startsWith(p)`. -/
def strStartsWith (s p : String) : Bool :=
  p.data.isPrefixOf s.data

/-- Accumulator loop for `String.prototype.split(sep)` on a single-character
separator. -/
def splitChAux (sep : Char) (cur : List Char) : List Char → List (List Char)
  | [] => [cur]
  | c :: rest =>
    if c = sep then cur :: splitChAux sep [] rest
    else splitChAux sep (cur ++ [c]) rest

/-- JavaScript `s.split(sep)` (no limit) for a one-character separator. -/
def jsSplitAll (s : String) (sep : Char) : List String :=
  (splitChAux sep [] s.data).map String.mk

/-- src/main.ts lines 180-183: interface `Resource`. -/
structure Resource where
  name : String
  project : String
deriving DecidableEq, Repr

/-- src/main.ts lines 473-499: `getResource(sourceFile)`; the final
`throw new Error(...)` becomes `Except.error`.  `sourceFile.split('/', 4)`
keeps at most the first four split pieces. -/
def getResource (sourceFile : String) : Except String Resource :=
  if strStartsWith sourceFile "vs/platform" then
    Except.ok (Resource.mk "vs/platform" "vscode-editor")
  else if strStartsWith sourceFile "vs/editor/contrib" then
    Except.ok (Resource.mk "vs/editor/contrib" "vscode-editor")
  else if strStartsWith sourceFile "vs/editor" then
    Except.ok (Resource.mk "vs/editor" "vscode-editor")
  else if strStartsWith sourceFile "vs/base" then
    Except.ok (Resource.mk "vs/base" "vscode-editor")
  else if strStartsWith sourceFile "vs/code" then
    Except.ok (Resource.mk "vs/code" "vscode-workbench")
  else if strStartsWith sourceFile "vs/workbench/parts" then
    Except.ok (Resource.mk (joinSep "/" ((jsSplitAll sourceFile '/').take 4)) "vscode-workbench")
  else if strStartsWith sourceFile "vs/workbench/services" then
    Except.ok (Resource.mk (joinSep "/" ((jsSplitAll sourceFile '/').take 4)) "vscode-workbench")
  else if strStartsWith sourceFile "vs/workbench" then
    Except.ok (Resource.mk "vs/workbench" "vscode-workbench")
  else
    Except.error ("Could not identify the XLF bundle for " ++ sourceFile)

/-! ## XLIFF parsing (`XLF.parse`, src/main.ts lines 363-412)

`XLF.parse` feeds the text through `xml2js` and then walks the resulting
object graph inside a `Promise`.  The embedding starts from the parsed-XML
object graph: `XmlInput` is the outcome of `xml2js` (total parse failure,
or a root with an optional `xliff.file` node list), a `FileNode` carries
the `original` / `target-language` attributes (absent attribute = `none`)
and the optional `trans-unit` collection of its `body` (a body without
trans-units yields `undefined`, i.e. `none`), and a `TransUnitNode`
carries the `id` attribute and the stringified `<target>` child (`none`
when there is no target element).  The promise settles with its first
rejection, and a thrown `TypeError` also settles it as a failure, so the
whole walk is an `Except` computation with first-error-wins semantics. -/

/-- One `<trans-unit>` node as seen by the parse loop. -/
structure TransUnitNode where
  id : Option String
  target : Option String
deriving DecidableEq, Repr

/-- One `<file>` node as seen by the parse loop. -/
structure FileNode where
  original : Option String
  targetLanguage : Option String
  transUnits : Option (List TransUnitNode)
deriving DecidableEq, Repr

/-- Outcome of the `xml2js` callback: either `err` was set, or a result
object whose `xliff.file` property may be absent. -/
inductive XmlInput
  | parseFailure (err : String)
  | parsed (fileNodes : Option (List FileNode))
deriving DecidableEq, Repr

/-- One element of the resolved array (src/main.ts line 367). -/
structure ParsedFile where
  messages : List (String × String)
  originalFilePath : String
  language : String
deriving DecidableEq, Repr

/-- JavaScript `s.toLowerCase()` (character-wise lowering). -/
def jsToLowerCase (s : String) : String :=
  String.mk (s.data.map Char.toLower)

/-- src/main.ts lines 392-404: the `transUnits.forEach` loop building the
`messages` object.  A unit without a `<target>` returns early (skipped);
otherwise `if (key && val)` stores `decodeEntities(val)` under the id and
any falsy id or stringified target rejects. -/
def parseTransUnits (messages : List (String × String)) :
    List TransUnitNode → Except String (List (String × String))
  | [] => Except.ok messages
  | u :: rest =>
    match u.target with
    | none => parseTransUnits messages rest
    | some val =>
      match u.id with
      | some k =>
        if k ≠ "" ∧ val ≠ "" then
          parseTransUnits (setAssoc messages k (decodeEntities val)) rest
        else
          Except.error "XLIFF file does not contain full localization data. ID or target translation for one of the trans-unit nodes is not present."
      | none =>
        Except.error "XLIFF file does not contain full localization data. ID or target translation for one of the trans-unit nodes is not present."

/-- src/main.ts lines 379-407: processing of one `<file>` node.  A falsy
`original` rejects; an absent `target-language` attribute throws a
`TypeError` at `.toLowerCase()` (which also settles the promise as a
failure); a lower-cased empty `target-language` rejects; an absent
trans-unit collection throws at `.forEach`. -/
def parseFileNode (f : FileNode) : Except String ParsedFile :=
  if jsFalsyOpt f.original then
    Except.error "XLIFF file node does not contain original attribute to determine the original location of the resource file."
  else
    match f.targetLanguage with
    | none => Except.error "TypeError: cannot read property toLowerCase of undefined"
    | some tl =>
      let language := jsToLowerCase tl
      if language = "" then
        Except.error "XLIFF file node does not contain target-language attribute to determine translated language."
      else
        match f.transUnits with
        | none => Except.error "TypeError: cannot read property forEach of undefined"
        | some units =>
          match parseTransUnits [] units with
          | Except.error e => Except.error e
          | Except.ok msgs =>
            Except.ok (ParsedFile.mk msgs (f.original.getD "") language)

/-- The `fileNodes.forEach` loop (src/main.ts lines 379-407) collecting
one `ParsedFile` per file node, first error wins. -/
def parseFileNodes : List FileNode → Except String (List ParsedFile)
  | [] => Except.ok []
  | f :: rest =>
    match parseFileNode f with
    | Except.error e => Except.error e
    | Except.ok pf =>
      match parseFileNodes rest with
      | Except.error e => Except.error e
      | Except.ok pfs => Except.ok (pf :: pfs)

/-- src/main.ts lines 363-412: `XLF.parse`. -/
def XLF.parse : XmlInput → Except String (List ParsedFile)
  | XmlInput.parseFailure err =>
    Except.error ("Failed to parse XLIFF string. " ++ err)
  | XmlInput.parsed none =>
    Except.error "XLIFF file does not contain \"xliff\" or \"file\" node(s) required for parsing."
  | XmlInput.parsed (some fileNodes) => parseFileNodes fileNodes

/-- The parsed-XML object graph of the text produced by `XLF.toString`:
each serialized `<file>` carries only the `original`, `source-language`
and `datatype` attributes (never `target-language`), and each serialized
`<trans-unit>` holds only `<source>` and optionally `<note>` children
(never `<target>`), so `xml2js` reads back these nodes.  A document with
no files serializes with no `<file>` children, so `result.xliff.file` is
absent.  This view is accurate for documents whose file paths and item
ids are free of the XML metacharacters, which the serializer does not
escape in attribute position. -/
def serializedXmlView (x : XLF) : XmlInput :=
  if x.files.isEmpty then XmlInput.parsed none
  else
    XmlInput.parsed (some (x.files.map (fun f =>
      FileNode.mk (some f.1) none
        (if f.2.isEmpty then none
         else some (f.2.map (fun it => TransUnitNode.mk (some it.id) none))))))

/-- `true` when the string avoids the XML metacharacters that would break
the serializer's unescaped attribute interpolation. -/
def xmlCleanStr (s : String) : Bool :=
  s.data.all (fun c => c ≠ '<' ∧ c ≠ '>' ∧ c ≠ '&' ∧ c ≠ '\x22')

/-- `serializedXmlView` is accurate for a document whose paths and ids
are XML-clean. -/
def xmlCleanDoc (x : XLF) : Bool :=
  x.files.all (fun f => xmlCleanStr f.1 ∧ f.2.all (fun it => xmlCleanStr it.id))

/-! ## The aggregator (`importModuleOrPackageJson`, src/main.ts lines 527-567)

The process-wide `extensions` map becomes an explicit state threaded
through the calls, and the `glob.sync(...).length` file count becomes an
injected `Nat` parameter supplied at each call (each call re-runs the
glob). -/

/-- A value of a package-JSON map: a plain string or a
`{message, comment}` object. -/
inductive PackageValue
  | str (s : String)
  | obj (message : String) (comment : List String)
deriving DecidableEq, Repr

/-- JavaScript `json[key].toString()`: a string stays itself, a plain
object stringifies to `"[object Object]"`. -/
def jsToStringPV : PackageValue → String
  | PackageValue.str s => s
  | PackageValue.obj _ _ => "[object Object]"

/-- The recognized shapes handed to `importModuleOrPackageJson`: a module
bundle `{keys, messages}` or a flat package map. -/
inductive NlsJson
  | module (keys : List NlsKey) (messages : List String)
  | package (pairs : List (String × PackageValue))
deriving DecidableEq, Repr

/-- One entry of the process-wide `extensions` map (src/main.ts line 528). -/
structure ExtGroup where
  xlf : XLF
  processed : Nat
deriving DecidableEq, Repr

/-- The process-wide `extensions` accumulator. -/
abbrev AggState := List (String × ExtGroup)

/-- An emitted XLF artifact (`stream.emit('data', xlfFile)`). -/
structure Emission where
  path : String
  contents : String
deriving DecidableEq, Repr

/-- One contribution: the vinyl file's relative path plus its parsed JSON. -/
structure Contribution where
  fileRelative : String
  json : NlsJson
deriving DecidableEq, Repr

/-- JavaScript `file.relative.replace(/\\/g, '/')`. -/
def mapBackslash (s : String) : String :=
  String.mk (s.data.map (fun c => if c = '\\' then '/' else c))

/-- `formattedSourcePath.substr(0, formattedSourcePath.length - '.nls.json'.length)`. -/
def dropNlsJsonSuffix (s : String) : String :=
  String.mk (s.data.take (s.data.length - 9))

/-- src/main.ts lines 529-567: `importModuleOrPackageJson`.  `globCount`
is the `glob.sync(...).length` value observed by THIS call (the source
recomputes it on every invocation).  When `extName?` is `some`, the
external-extension branch is taken; otherwise the extension name is the
first path segment and the original path gains the `extensions/` prefix.
The keys/messages mismatch log at line 530 only writes to the console and
is not part of the state.  Returns the updated `extensions` map and the
emitted file, if any. -/
def importModuleOrPackageJson (globCount : Nat) (projectName : String)
    (extName? : Option String) (fileRelative : String) (json : NlsJson)
    (st : AggState) : Except String (AggState × Option Emission) :=
  let formattedSourcePath := mapBackslash fileRelative
  let extensionName :=
    match extName? with
    | some e => e
    | none => (jsSplitAll formattedSourcePath '/').headD ""
  let originalFilePath :=
    match extName? with
    | some _ => dropNlsJsonSuffix formattedSourcePath
    | none => "extensions/" ++ dropNlsJsonSuffix formattedSourcePath
  let group := (lookupAssoc st extensionName).getD (ExtGroup.mk (XLF.new projectName) 0)
  match (match json with
         | NlsJson.module ks ms => XLF.addFile group.xlf originalFilePath ks ms
         | NlsJson.package pairs =>
           XLF.addFile group.xlf originalFilePath
             (pairs.map (fun p => NlsKey.str p.1)) (pairs.map (fun p => jsToStringPV p.2))) with
  | Except.error e => Except.error e
  | Except.ok xlf1 =>
    let processed1 := group.processed + 1
    if processed1 = globCount then
      let r := XLF.toString xlf1
      Except.ok (setAssoc st extensionName (ExtGroup.mk r.1 processed1),
        some (Emission.mk (projectName ++ "/" ++ extensionName ++ ".xlf") r.2))
    else
      Except.ok (setAssoc st extensionName (ExtGroup.mk xlf1 processed1), none)

/-- Runs a sequence of contributions through the aggregator, each paired
with the glob count its call observes; collects whether each call
emitted. -/
def runAgg (projectName : String) (extName? : Option String) (st : AggState) :
    List (Nat × Contribution) → Except String (AggState × List Bool)
  | [] => Except.ok (st, [])
  | (g, c) :: rest =>
    match importModuleOrPackageJson g projectName extName? c.fileRelative c.json st with
    | Except.error e => Except.error e
    | Except.ok (st1, em) =>
      match runAgg projectName extName? st1 rest with
      | Except.error e => Except.error e
      | Except.ok (st2, flags) => Except.ok (st2, em.isSome :: flags)

/-! ## Bundle-JSON import (`importBundleJson`, src/main.ts lines 502-525) -/

/-- JavaScript `resource.replace(/\//g, '_')`. -/
def replaceSlashUnderscore (s : String) : String :=
  String.mk (s.data.map (fun c => if c = '/' then '_' else c))

/-- One `source -> (keys, messages)` entry of a combined bundle JSON. -/
structure BundleEntry where
  source : String
  keys : List NlsKey
  messages : List String
deriving DecidableEq, Repr

/-- The `for (let source in json.keys)` loop of `importBundleJson`:
classify the source (a `getResource` throw aborts the stream handler),
log a mismatch warning when the keys/messages lengths differ, and add the
file to the resource's XLF (created on first use).  Accumulates the
`bundleXlfs` map and the warning log. -/
def importBundleJsonGo (fileRelative : String) (xlfs : List (String × XLF))
    (warnings : List String) :
    List BundleEntry → Except String (List (String × XLF) × List String)
  | [] => Except.ok (xlfs, warnings)
  | e :: rest =>
    match getResource e.source with
    | Except.error err => Except.error err
    | Except.ok res =>
      let warnings1 :=
        if e.keys.length ≠ e.messages.length then
          warnings ++ ["There is a mismatch between keys and messages in " ++ fileRelative]
        else warnings
      let xlf := (lookupAssoc xlfs res.name).getD (XLF.new res.project)
      match XLF.addFile xlf e.source e.keys e.messages with
      | Except.error err => Except.error err
      | Except.ok xlf1 =>
        importBundleJsonGo fileRelative (setAssoc xlfs res.name xlf1) warnings1 rest

/-- src/main.ts lines 502-525: `importBundleJson` — process every entry,
then emit one `<project>/<resource-with-underscores>.xlf` artifact per
accumulated resource, in insertion order.  Returns the warning log and
the emissions. -/
def importBundleJson (fileRelative : String) (entries : List BundleEntry) :
    Except String (List String × List Emission) :=
  match importBundleJsonGo fileRelative [] [] entries with
  | Except.error e => Except.error e
  | Except.ok (xlfs, warnings) =>
    Except.ok (warnings, xlfs.map (fun r =>
      Emission.mk (r.2.project ++ "/" ++ replaceSlashUnderscore r.1 ++ ".xlf")
        (XLF.toString r.2).2))

/-! ## ISL transcoding (`createIslFile`, src/main.ts lines 923-973)

Only the per-line substitution logic is in scope (reading the template
from disk and the final code-page encoding are I/O).  `islTranslateLine`
maps one template line to the line pushed onto `content`, or to `none`
for an empty line (which the source drops). -/

/-- src/main.ts lines 899-903. -/
def languageNames : List (String × String) :=
  [("chs", "Simplified Chinese"), ("cht", "Traditional Chinese"), ("kor", "Korean")]

/-- src/main.ts lines 905-909. -/
def languageIds : List (String × String) :=
  [("chs", "$0804"), ("cht", "$0404"), ("kor", "$0412")]

/-- src/main.ts lines 911-921. -/
def encodings : List (String × String) :=
  [("chs", "CP936"), ("cht", "CP950"), ("jpn", "CP932"), ("kor", "CP949"),
   ("deu", "CP1252"), ("fra", "CP1252"), ("esn", "CP1252"), ("rus", "CP1251"),
   ("ita", "CP1252")]

/-- JavaScript template interpolation of a possibly-`undefined` string. -/
def jsTemplateOpt : Option String → String
  | some s => s
  | none => "undefined"

/-- src/main.ts lines 932-963: the body of the `originalContent.lines.forEach`
loop of `createIslFile`.  Comment/section lines pass through (with the
version banner rewritten); a data line is split on `=`, the three locale
metadata keys substitute from the static tables (`LanguageCodePage` strips
the leading `CP` via `.substr(2)`), any other key substitutes
`messages[key]` when that value is truthy and otherwise keeps the line. -/
def islTranslateLine (messages : List (String × String)) (language : String)
    (line : String) : Except String (Option String) :=
  if line.data.length = 0 then Except.ok none
  else
    let firstChar := line.data.headD ' '
    if firstChar = '[' ∨ firstChar = ';' then
      if line = "; *** Inno Setup version 5.5.3+ English messages ***" then
        Except.ok (some ("; *** Inno Setup version 5.5.3+ "
          ++ jsTemplateOpt (lookupAssoc languageNames language) ++ " messages ***"))
      else Except.ok (some line)
    else
      let sections := jsSplitAll line '='
      let key := sections.headD ""
      if key ≠ "" then
        if key = "LanguageName" then
          Except.ok (some (key ++ "=" ++ jsTemplateOpt (lookupAssoc languageNames language)))
        else if key = "LanguageID" then
          Except.ok (some (key ++ "=" ++ jsTemplateOpt (lookupAssoc languageIds language)))
        else if key = "LanguageCodePage" then
          match lookupAssoc encodings language with
          | none => Except.error "TypeError: cannot read property substr of undefined"
          | some enc => Except.ok (some (key ++ "=" ++ String.mk (enc.data.drop 2)))
        else
          match lookupAssoc messages key with
          | some t =>
            if t ≠ "" then Except.ok (some (key ++ "=" ++ t))
            else Except.ok (some line)
          | none => Except.ok (some line)
      else Except.ok (some line)

/-! ## Specification-side predicates and proof-side auxiliary definitions -/

/-- Spec-side: first-occurrence deduplication ("duplicate ids after the
first are dropped"), with the already-kept ids accumulated in `seen`. -/
def dedupFirstAux (seen : List String) : List String → List String
  | [] => []
  | k :: rest =>
    if seen.contains k then dedupFirstAux seen rest
    else k :: dedupFirstAux (seen ++ [k]) rest

/-- Spec-side: keep the first occurrence of every id, drop later ones. -/
def dedupFirst (l : List String) : List String :=
  dedupFirstAux [] l

/-- Reject condition of the parse loop for one trans-unit, read off the
code: a present target whose id is falsy or whose stringified value is
empty. -/
def unitRejectB (u : TransUnitNode) : Bool :=
  match u.target with
  | none => false
  | some val => jsFalsyOpt u.id || val = ""

/-- Reject condition of the parse loop for one file node, read off the
code: falsy `original`; absent or (after lowering) empty
`target-language`; absent trans-unit collection; or a rejecting unit. -/
def fileRejectB (f : FileNode) : Bool :=
  jsFalsyOpt f.original ||
  (match f.targetLanguage with
   | none => true
   | some tl =>
     (jsToLowerCase tl = "" : Bool) ||
     (match f.transUnits with
      | none => true
      | some units => units.any unitRejectB))

/-- Failure condition of `XLF.parse` over the whole input. -/
def xlfRejectB : XmlInput → Bool
  | XmlInput.parseFailure _ => true
  | XmlInput.parsed none => true
  | XmlInput.parsed (some fs) => fs.any fileRejectB

/-- The claim's list of reject conditions, as stated: XML unparseable; no
`xliff.file` nodes; a file node lacking the `original` attribute; a file
node lacking the `target-language` attribute; or a trans-unit that HAS an
id but whose target stringifies to nothing. -/
def claimRejectB : XmlInput → Bool
  | XmlInput.parseFailure _ => true
  | XmlInput.parsed none => true
  | XmlInput.parsed (some fs) =>
    fs.any (fun f =>
      f.original = none || f.targetLanguage = none ||
      (match f.transUnits with
       | none => false
       | some units => units.any (fun u => !jsFalsyOpt u.id && u.target = some "")))

/-- The `processed` counter currently recorded for an extension (0 when
the extension has no group yet). -/
def procOf (st : AggState) (ext : String) : Nat :=
  match lookupAssoc st ext with
  | some g => g.processed
  | none => 0

/-- Well-formedness of one contribution: the messages cover the keys, so
`XLF.addFile` does not throw (a package map always covers itself). -/
def wfContribB : NlsJson → Bool
  | NlsJson.module ks ms => ks.length ≤ ms.length
  | NlsJson.package _ => true

/-- A concrete document holding one file with one item whose message is
`"<a>&b"`, used against the round-trip claim. -/
def roundTripDoc : XLF :=
  match XLF.addFile (XLF.new "vscode-extensions") "f" [NlsKey.str "k"] ["<a>&b"] with
  | Except.ok x => x
  | Except.error _ => XLF.new "vscode-extensions"

/-- Proof-side description of the first decode pass on an encoded string:
`&lt;` blocks have collapsed back to `<`, the other blocks remain. -/
def g1Chars : List Char → List Char
  | [] => []
  | c :: rest =>
    (if c = '<' then ['<']
     else if c = '>' then "&gt;".data
     else if c = '&' then "&amp;".data
     else [c]) ++ g1Chars rest

/-- Proof-side description of the first two decode passes on an encoded
string: only `&amp;` blocks remain. -/
def g2Chars : List Char → List Char
  | [] => []
  | c :: rest =>
    (if c = '&' then "&amp;".data else [c]) ++ g2Chars rest

/-! ## Theorems -/

theorem joinSep_append (sep : String) (xs ys : List String) (hx : xs ≠ []) (hy : ys ≠ []) :
    joinSep sep (xs ++ ys) = joinSep sep xs ++ sep ++ joinSep sep ys := by
  induction xs with
  | nil => exact absurd rfl hx
  | cons a xs ih =>
    cases xs with
    | nil =>
      obtain ⟨y, ys', rfl⟩ := List.exists_cons_of_ne_nil hy
      simp [joinSep]
    | cons b xs' =>
      have ihh := ih (by simp)
      show a ++ sep ++ joinSep sep ((b :: xs') ++ ys)
        = (a ++ sep ++ joinSep sep (b :: xs')) ++ sep ++ joinSep sep ys
      rw [ihh]
      simp [String.append_assoc]

theorem xlfEmittedLines_ne_nil (x : XLF) : xlfEmittedLines x ≠ [] := by
  simp [xlfEmittedLines]

/-- C7: `getResource` maps `vs/editor/contrib/foo` to the
`vs/editor/contrib` resource of project `vscode-editor`, maps
`vs/workbench/parts/search/x` to the 4-segment-truncated
`vs/workbench/parts/search` resource of project `vscode-workbench`, and
throws an error naming the path whenever no known prefix matches. -/
theorem getResource_classification_law :
    getResource "vs/editor/contrib/foo"
        = Except.ok (Resource.mk "vs/editor/contrib" "vscode-editor")
    ∧ getResource "vs/workbench/parts/search/x"
        = Except.ok (Resource.mk "vs/workbench/parts/search" "vscode-workbench")
    ∧ (∀ s : String,
        strStartsWith s "vs/platform" = false →
        strStartsWith s "vs/editor/contrib" = false →
        strStartsWith s "vs/editor" = false →
        strStartsWith s "vs/base" = false →
        strStartsWith s "vs/code" = false →
        strStartsWith s "vs/workbench/parts" = false →
        strStartsWith s "vs/workbench/services" = false →
        strStartsWith s "vs/workbench" = false →
        getResource s = Except.error ("Could not identify the XLF bundle for " ++ s)) := by
  refine ⟨by decide, by decide, ?_⟩
  intro s h1 h2 h3 h4 h5 h6 h7 h8
  simp [getResource, h1, h2, h3, h4, h5, h6, h7, h8]

theorem getResource_classification_law_witness :
    getResource "unknown/path"
      = Except.error ("Could not identify the XLF bundle for " ++ "unknown/path") :=
  getResource_classification_law.2.2 "unknown/path" (by decide) (by decide) (by decide)
    (by decide) (by decide) (by decide) (by decide) (by decide)

/-- C9: the ISL line transcoder rewrites `LanguageName=English` for
language `kor` to `LanguageName=Korean` (for any message map), writes the
`LanguageCodePage` value with its `CP` prefix stripped, substitutes a
nonempty translated message for `Foo=Bar`, and keeps `Foo=Bar` verbatim
when no message matches. -/
theorem createIslFile_substitution :
    (∀ msgs : List (String × String),
      islTranslateLine msgs "kor" "LanguageName=English"
        = Except.ok (some "LanguageName=Korean"))
    ∧ islTranslateLine [] "kor" "LanguageCodePage=0"
        = Except.ok (some "LanguageCodePage=949")
    ∧ (∀ t : String, t ≠ "" →
        islTranslateLine [("Foo", t)] "kor" "Foo=Bar" = Except.ok (some ("Foo=" ++ t)))
    ∧ islTranslateLine [] "kor" "Foo=Bar" = Except.ok (some "Foo=Bar") := by
  refine ⟨fun msgs => rfl, by decide, ?_, by decide⟩
  intro t ht
  show (if t ≠ "" then Except.ok (some ("Foo=" ++ t)) else Except.ok (some "Foo=Bar"))
    = Except.ok (some ("Foo=" ++ t))
  rw [if_pos ht]

theorem createIslFile_substitution_witness :
    islTranslateLine [("Foo", "T")] "kor" "Foo=Bar" = Except.ok (some ("Foo=" ++ "T")) :=
  createIslFile_substitution.2.2.1 "T" (by decide)

/-- C4 counterexample: serializing the same (unmodified) empty document
twice does NOT give byte-identical output — `toString` appends to the
instance buffer without clearing it, so the second call returns the
content twice. -/
theorem serialize_idempotence_counterexample :
    (XLF.toString (XLF.toString (XLF.new "vscode-workbench")).1).2
      ≠ (XLF.toString (XLF.new "vscode-workbench")).2 := by
  decide

/-- C4 (amended): for a freshly constructed document (empty buffer), the
first `toString` yields the document text once, and a second call on the
instance returned by the first yields that text twice, joined by CRLF —
the buffer is never cleared between calls. -/
theorem serialize_second_call_duplicates (x : XLF) (hb : x.buffer = []) :
    (XLF.toString (XLF.toString x).1).2
      = (XLF.toString x).2 ++ "\r\n" ++ (XLF.toString x).2 := by
  have hL : xlfEmittedLines x ≠ [] := xlfEmittedLines_ne_nil x
  simp only [XLF.toString, hb, List.nil_append]
  have hfiles : xlfEmittedLines { x with buffer := xlfEmittedLines x } = xlfEmittedLines x := rfl
  rw [hfiles]
  exact joinSep_append "\r\n" (xlfEmittedLines x) (xlfEmittedLines x) hL hL

theorem serialize_second_call_duplicates_witness :
    (XLF.toString (XLF.toString (XLF.new "p")).1).2
      = (XLF.toString (XLF.new "p")).2 ++ "\r\n" ++ (XLF.toString (XLF.new "p")).2 :=
  serialize_second_call_duplicates (XLF.new "p") rfl

/-- C3 counterexample: for the document with one file `f` holding the
single item `k ↦ "<a>&b"` (an XML-clean document), parsing the
serialization does NOT succeed: the serializer emits no `target-language`
attribute and no `<target>` elements, so `XLF.parse` fails on the very
first file node. -/
theorem roundtrip_counterexample :
    isErr (XLF.parse (serializedXmlView roundTripDoc)) = true
    ∧ xmlCleanDoc roundTripDoc = true := by
  decide

/-- C3 (amended): parsing the direct serialization of a document always
fails — with the no-file-nodes rejection for an empty document and on the
missing `target-language` attribute otherwise — because `toString` writes
neither `target-language` attributes nor `<target>` elements.  The
id-to-message round-trip modulo entities holds only at the entity level:
decoding the encoding of `"<a>&b"` restores exactly `"<a>&b"`. -/
theorem parse_of_serialize_always_fails :
    (∀ x : XLF, xmlCleanDoc x = true → isErr (XLF.parse (serializedXmlView x)) = true)
    ∧ decodeEntities (encodeEntities "<a>&b") = "<a>&b" := by
  refine ⟨?_, by decide⟩
  intro x _
  cases hf : x.files with
  | nil => simp [serializedXmlView, hf, XLF.parse, isErr]
  | cons f fs =>
    by_cases h1 : f.1 = "" <;>
      simp [serializedXmlView, hf, XLF.parse, parseFileNodes, parseFileNode,
        jsFalsyOpt, h1, isErr]

theorem parse_of_serialize_always_fails_witness :
    isErr (XLF.parse (serializedXmlView (XLF.new "p"))) = true :=
  parse_of_serialize_always_fails.1 (XLF.new "p") (by decide)

theorem jsIndexOfStr_mem (k : String) (ks : List NlsKey) (h : NlsKey.str k ∈ ks) :
    ∃ i, jsIndexOfStr k ks = some i ∧ i < ks.length := by
  induction ks with
  | nil => simp at h
  | cons a rest ih =>
    cases a with
    | str s =>
      by_cases hs : s = k
      · exact ⟨0, by simp [jsIndexOfStr, hs], by simp⟩
      · have hm : NlsKey.str k ∈ rest := by
          rcases List.mem_cons.mp h with heq | hm
          · cases heq; exact absurd rfl hs
          · exact hm
        obtain ⟨i, hi, hlt⟩ := ih hm
        refine ⟨i + 1, by simp [jsIndexOfStr, hs, hi], by simp; omega⟩
    | info key c =>
      have hm : NlsKey.str k ∈ rest := by
        rcases List.mem_cons.mp h with heq | hm
        · exact absurd heq (by simp)
        · exact hm
      obtain ⟨i, hi, hlt⟩ := ih hm
      refine ⟨i + 1, by simp [jsIndexOfStr, hi], by simp; omega⟩

theorem addFileItemsGo_ok (keys : List NlsKey) (messages : List String)
    (hk : keys.length ≤ messages.length) :
    ∀ (sub : List NlsKey) (i : Nat) (seen : List String),
      (∀ x ∈ sub, x ∈ keys) → i + sub.length ≤ messages.length →
      ∃ items, addFileItemsGo keys messages i sub seen = Except.ok items := by
  intro sub
  induction sub with
  | nil => exact fun i seen _ _ => ⟨[], rfl⟩
  | cons a rest ih =>
    intro i seen hmem hlen
    have hlen' : (i + 1) + rest.length ≤ messages.length := by
      simp at hlen; omega
    have hmem' : ∀ x ∈ rest, x ∈ keys := fun x hx => hmem x (by simp [hx])
    cases a with
    | str k =>
      by_cases hseen : k ∈ seen
      · obtain ⟨items, hitems⟩ := ih (i + 1) seen hmem' hlen'
        exact ⟨items, by simp [addFileItemsGo, hseen, hitems]⟩
      · obtain ⟨idx, hidx, hlt⟩ :=
          jsIndexOfStr_mem k keys (hmem (NlsKey.str k) (by simp))
        have hmsg : messages[idx]? = some (messages.get ⟨idx, by omega⟩) :=
          List.getElem?_eq_getElem (by omega)
        obtain ⟨items, hitems⟩ := ih (i + 1) (seen ++ [k]) hmem' hlen'
        refine ⟨Item.mk k (encodeEntities (messages.get ⟨idx, by omega⟩)) none :: items, ?_⟩
        simp [addFileItemsGo, hseen, hidx, msgAt, hmsg, encodeEntitiesJS, hitems]
    | info key c =>
      have hi : i < messages.length := by simp at hlen; omega
      have hmsg : messages[i]? = some (messages.get ⟨i, hi⟩) := List.getElem?_eq_getElem hi
      obtain ⟨items, hitems⟩ := ih (i + 1) seen hmem' hlen'
      refine ⟨Item.mk key (encodeEntities (messages.get ⟨i, hi⟩))
          (if c.isEmpty then none
           else some (joinSep "\r\n" (c.map encodeEntities))) :: items, ?_⟩
      simp [addFileItemsGo, msgAt, hmsg, encodeEntitiesJS, hitems]

theorem addFileItemsGo_ids (ks ms : List String) (hk : ks.length ≤ ms.length) :
    ∀ (sub : List String) (i : Nat) (seen : List String),
      (∀ x ∈ sub, x ∈ ks) →
      ∃ items,
        addFileItemsGo (ks.map NlsKey.str) ms i (sub.map NlsKey.str) seen = Except.ok items
        ∧ items.map Item.id = dedupFirstAux seen sub := by
  intro sub
  induction sub with
  | nil => exact fun i seen _ => ⟨[], rfl, rfl⟩
  | cons k rest ih =>
    intro i seen hmem
    have hmem' : ∀ x ∈ rest, x ∈ ks := fun x hx => hmem x (by simp [hx])
    by_cases hseen : k ∈ seen
    · obtain ⟨items, hitems, hids⟩ := ih (i + 1) seen hmem'
      exact ⟨items, by simp [addFileItemsGo, hseen, hitems],
        by simp [dedupFirstAux, hseen, hids]⟩
    · have hmk : NlsKey.str k ∈ ks.map NlsKey.str :=
        List.mem_map_of_mem NlsKey.str (hmem k (by simp))
      obtain ⟨idx, hidx, hlt⟩ := jsIndexOfStr_mem k (ks.map NlsKey.str) hmk
      have hlt' : idx < ms.length := by simp at hlt; omega
      have hmsg : ms[idx]? = some (ms.get ⟨idx, hlt'⟩) := List.getElem?_eq_getElem hlt'
      obtain ⟨items, hitems, hids⟩ := ih (i + 1) (seen ++ [k]) hmem'
      refine ⟨Item.mk k (encodeEntities (ms.get ⟨idx, hlt'⟩)) none :: items, ?_, ?_⟩
      · simp [addFileItemsGo, hseen, hidx, msgAt, hmsg, encodeEntitiesJS, hitems]
      · simp [dedupFirstAux, hseen, hids]

/-- C5: adding a file with a duplicated plain-string id keeps only the
first occurrence — `addFile(p, [k,k], [m1,m2])` stores the single item
`(k, encode m1)` for `p` — and in general, for plain-string keys, the
stored ids are the keys deduplicated by first occurrence. -/
theorem addFile_duplicate_key_law :
    (∀ (x : XLF) (p k m1 m2 : String),
        XLF.addFile x p [NlsKey.str k, NlsKey.str k] [m1, m2]
          = Except.ok (XLF.mk x.project x.buffer
              (setAssoc x.files p [Item.mk k (encodeEntities m1) none])))
    ∧ (∀ ks ms : List String, ks.length ≤ ms.length →
        ∃ items, addFileItems (ks.map NlsKey.str) ms = Except.ok items
          ∧ items.map Item.id = dedupFirst ks) := by
  constructor
  · intro x p k m1 m2
    simp [XLF.addFile, addFileItems, addFileItemsGo, jsIndexOfStr, msgAt,
      encodeEntitiesJS, List.contains]
  · intro ks ms hk
    obtain ⟨items, hitems, hids⟩ :=
      addFileItemsGo_ids ks ms hk ks 0 [] (fun x hx => hx)
    exact ⟨items, hitems, hids⟩

theorem lookupAssoc_cons_ne {α : Type} (p : String × α) (m : List (String × α))
    (k : String) (h : ¬ p.1 = k) : lookupAssoc (p :: m) k = lookupAssoc m k := by
  unfold lookupAssoc
  rw [List.find?_cons_of_neg m (by simp [h])]

theorem lookupAssoc_setAssoc {α : Type} (m : List (String × α)) (k : String) (v : α) :
    lookupAssoc (setAssoc m k v) k = some v := by
  induction m with
  | nil => simp [setAssoc, lookupAssoc]
  | cons p m ih =>
    by_cases hp : p.1 = k
    · unfold setAssoc
      rw [if_pos (by simp [hp])]
      show lookupAssoc ((if p.1 = k then (k, v) else p) :: m.map _) k = some v
      rw [if_pos hp]
      unfold lookupAssoc
      rw [List.find?_cons_of_pos _ (by simp)]
    · by_cases hm : (m.any fun q => decide (q.1 = k)) = true
      · unfold setAssoc at ih ⊢
        rw [if_pos hm] at ih
        rw [if_pos (show ((p :: m).any fun q => decide (q.1 = k)) = true by simp [List.any_cons, hm])]
        show lookupAssoc ((if p.1 = k then (k, v) else p) :: m.map _) k = some v
        rw [if_neg hp, lookupAssoc_cons_ne _ _ _ hp]
        exact ih
      · unfold setAssoc at ih ⊢
        rw [if_neg hm] at ih
        rw [if_neg (show ¬ ((p :: m).any fun q => decide (q.1 = k)) = true by simp [List.any_cons, hm, hp])]
        rw [List.cons_append, lookupAssoc_cons_ne _ _ _ hp]
        exact ih

theorem procOf_getD (st : AggState) (ext pn : String) :
    ((lookupAssoc st ext).getD (ExtGroup.mk (XLF.new pn) 0)).processed = procOf st ext := by
  simp only [procOf]
  cases lookupAssoc st ext <;> rfl

theorem procOf_setAssoc (st : AggState) (ext : String) (g : ExtGroup) :
    procOf (setAssoc st ext g) ext = g.processed := by
  simp [procOf, lookupAssoc_setAssoc]

theorem addFile_ok (x : XLF) (orig : String) (ks : List NlsKey) (ms : List String)
    (h : ks.length ≤ ms.length) : ∃ x', XLF.addFile x orig ks ms = Except.ok x' := by
  obtain ⟨items, hi⟩ := addFileItemsGo_ok ks ms h ks 0 [] (fun y hy => hy) (by omega)
  refine ⟨XLF.mk x.project x.buffer (setAssoc x.files orig items), ?_⟩
  simp [XLF.addFile, addFileItems, hi]

theorem importStep (g : Nat) (projectName extName fileRelative : String)
    (json : NlsJson) (st : AggState) (hwf : wfContribB json = true) :
    ∃ st' em, importModuleOrPackageJson g projectName (some extName) fileRelative json st
        = Except.ok (st', em)
      ∧ procOf st' extName = procOf st extName + 1
      ∧ em.isSome = decide (procOf st extName + 1 = g) := by
  cases json with
  | module ks ms =>
    have hle : ks.length ≤ ms.length := by simpa [wfContribB] using hwf
    obtain ⟨x', hx'⟩ := addFile_ok
      ((lookupAssoc st extName).getD (ExtGroup.mk (XLF.new projectName) 0)).xlf
      (dropNlsJsonSuffix (mapBackslash fileRelative)) ks ms hle
    simp only [importModuleOrPackageJson, hx']
    rw [procOf_getD st extName projectName]
    by_cases hemit : procOf st extName + 1 = g
    · rw [if_pos hemit]
      exact ⟨_, _, rfl, by rw [procOf_setAssoc], by simp [hemit]⟩
    · rw [if_neg hemit]
      exact ⟨_, _, rfl, by rw [procOf_setAssoc], by simp [hemit]⟩
  | package pairs =>
    obtain ⟨x', hx'⟩ := addFile_ok
      ((lookupAssoc st extName).getD (ExtGroup.mk (XLF.new projectName) 0)).xlf
      (dropNlsJsonSuffix (mapBackslash fileRelative))
      (pairs.map (fun p => NlsKey.str p.1)) (pairs.map (fun p => jsToStringPV p.2))
      (by simp)
    simp only [importModuleOrPackageJson, hx']
    rw [procOf_getD st extName projectName]
    by_cases hemit : procOf st extName + 1 = g
    · rw [if_pos hemit]
      exact ⟨_, _, rfl, by rw [procOf_setAssoc], by simp [hemit]⟩
    · rw [if_neg hemit]
      exact ⟨_, _, rfl, by rw [procOf_setAssoc], by simp [hemit]⟩

theorem range_map_flag (p N n : Nat) :
    (List.range (n + 1)).map (fun i => decide (p + i + 1 = N))
      = decide (p + 1 = N) :: (List.range n).map (fun i => decide (p + i + 2 = N)) := by
  rw [List.range_succ_eq_map, List.map_cons, List.map_map]
  congr 1

theorem runAgg_flags (N : Nat) (projectName extName : String) :
    ∀ (inputs : List Contribution) (st : AggState),
      (∀ c ∈ inputs, wfContribB c.json = true) →
      ∃ st', runAgg projectName (some extName) st (inputs.map (fun c => (N, c)))
          = Except.ok (st', (List.range inputs.length).map
              (fun i => decide (procOf st extName + i + 1 = N)))
        ∧ procOf st' extName = procOf st extName + inputs.length := by
  intro inputs
  induction inputs with
  | nil => exact fun st _ => ⟨st, rfl, by simp⟩
  | cons c rest ih =>
    intro st hwf
    obtain ⟨st1, em, hstep, hproc1, hem⟩ :=
      importStep N projectName extName c.fileRelative c.json st (hwf c (by simp))
    obtain ⟨st', hrun, hproc'⟩ := ih st1 (fun d hd => hwf d (by simp [hd]))
    refine ⟨st', ?_, by rw [hproc', hproc1]; simp [List.length_cons]; omega⟩
    have hflags : em.isSome ::
        (List.range rest.length).map (fun i => decide (procOf st1 extName + i + 1 = N))
      = (List.range (rest.length + 1)).map
          (fun i => decide (procOf st extName + i + 1 = N)) := by
      have htail : (List.range rest.length).map
            (fun i => decide (procOf st1 extName + i + 1 = N))
          = (List.range rest.length).map
              (fun i => decide (procOf st extName + i + 2 = N)) := by
        apply List.map_congr_left
        intro i _
        rw [hproc1]
        exact decide_eq_decide.mpr (by constructor <;> intro h <;> omega)
      rw [range_map_flag, ← hem, htail]
    simp only [List.map_cons, runAgg, hstep, hrun, List.length_cons]
    rw [← hflags]

theorem range_map_emit_flags (N : Nat) (hN : 0 < N) :
    (List.range N).map (fun i => decide (0 + i + 1 = N))
      = List.replicate (N - 1) false ++ [true] := by
  obtain ⟨n, rfl⟩ := Nat.exists_eq_succ_of_ne_zero (Nat.pos_iff_ne_zero.mp hN)
  rw [show n.succ = n + 1 from rfl, List.range_succ, List.map_append]
  congr 1
  · apply List.eq_replicate_iff.mpr
    refine ⟨by simp, ?_⟩
    intro b hb
    obtain ⟨i, hi, rfl⟩ := List.mem_map.mp hb
    have hlt : i < n := List.mem_range.mp hi
    simp only [decide_eq_false_iff_not]
    omega
  · simp

/-- C1: for an extension whose glob count is the constant `N > 0`
throughout the run, feeding exactly `N` well-formed module/package-JSON
contributions through `importModuleOrPackageJson` emits the group's XLIFF
document exactly once, and only on the `N`-th contribution (the emission
flags are `N-1` falses followed by one true). -/
theorem completion_law (N : Nat) (projectName extName : String)
    (inputs : List Contribution) (hN : 0 < N) (hlen : inputs.length = N)
    (hwf : ∀ c ∈ inputs, wfContribB c.json = true) :
    ∃ st, runAgg projectName (some extName) [] (inputs.map (fun c => (N, c)))
        = Except.ok (st, List.replicate (N - 1) false ++ [true]) := by
  obtain ⟨st', hrun, _⟩ := runAgg_flags N projectName extName inputs [] hwf
  refine ⟨st', ?_⟩
  rw [hrun]
  have hzero : procOf ([] : AggState) extName = 0 := rfl
  simp only [hzero, hlen]
  rw [range_map_emit_flags N hN]

theorem completion_law_witness :
    ∃ st, runAgg "vscode-extensions" (some "ext1") []
        ([Contribution.mk "a.nls.json" (NlsJson.module [NlsKey.str "k"] ["m"]),
          Contribution.mk "b.nls.json" (NlsJson.module [NlsKey.str "j"] ["n"])].map
            (fun c => (2, c)))
      = Except.ok (st, List.replicate (2 - 1) false ++ [true]) :=
  completion_law 2 "vscode-extensions" "ext1"
    [Contribution.mk "a.nls.json" (NlsJson.module [NlsKey.str "k"] ["m"]),
     Contribution.mk "b.nls.json" (NlsJson.module [NlsKey.str "j"] ["n"])]
    (by decide) rfl
    (by
      intro c hc
      rcases List.mem_cons.mp hc with h | h
      · subst h; decide
      · rw [List.mem_singleton] at h; subst h; decide)

/-- C2 counterexample: the expected input count is NOT determined once and
reused — each call uses the glob count it observes.  Two runs whose first
calls are identical (both observe count 2) but whose second calls observe
different counts (2 vs 3) behave differently on the second contribution:
the first run emits there, the second does not.  Under the claim the
second call would reuse the initially determined count 2 and emit in both
runs. -/
theorem expected_count_once_counterexample :
    (runAgg "proj" (some "ext1") []
      [(2, Contribution.mk "a.nls.json" (NlsJson.module [NlsKey.str "k"] ["m"])),
       (3, Contribution.mk "b.nls.json" (NlsJson.module [NlsKey.str "j"] ["n"]))]).map
        (fun p => p.2) = Except.ok [false, false]
    ∧ (runAgg "proj" (some "ext1") []
      [(2, Contribution.mk "a.nls.json" (NlsJson.module [NlsKey.str "k"] ["m"])),
       (2, Contribution.mk "b.nls.json" (NlsJson.module [NlsKey.str "j"] ["n"]))]).map
        (fun p => p.2) = Except.ok [false, true] := by
  decide

/-- C2 (amended): `importModuleOrPackageJson` re-runs the file-system glob
on every call and uses THAT call's count: a call emits exactly when the
extension's incremented `processed` counter equals the glob count passed
to this very call, regardless of the counts earlier calls observed.  When
the file system is stable, every call sees the same count and the
behavior coincides with a once-determined count. -/
theorem expected_count_used_per_call (globCount : Nat)
    (projectName extName fileRelative : String) (json : NlsJson) (st : AggState)
    (hwf : wfContribB json = true) :
    ∃ st' em, importModuleOrPackageJson globCount projectName (some extName)
        fileRelative json st = Except.ok (st', em)
      ∧ em.isSome = decide (procOf st extName + 1 = globCount) := by
  obtain ⟨st', em, h1, _, h3⟩ :=
    importStep globCount projectName extName fileRelative json st hwf
  exact ⟨st', em, h1, h3⟩

theorem expected_count_used_per_call_witness :
    ∃ st' em, importModuleOrPackageJson 2 "proj" (some "ext1") "a.nls.json"
        (NlsJson.module [NlsKey.str "k"] ["m"]) [] = Except.ok (st', em)
      ∧ em.isSome = decide (procOf ([] : AggState) "ext1" + 1 = 2) :=
  expected_count_used_per_call 2 "proj" "ext1" "a.nls.json"
    (NlsJson.module [NlsKey.str "k"] ["m"]) [] (by decide)

/-- C8 counterexample: with keys longer than messages
(`["a","b"]` against `["m"]`), `importBundleJson` does NOT continue
non-fatally up to the shorter length — the call throws (`encodeEntities`
receives `undefined` for the second key), so the whole import fails. -/
theorem length_mismatch_counterexample :
    isErr (importBundleJson "f.json"
      [BundleEntry.mk "vs/base/ui" [NlsKey.str "a", NlsKey.str "b"] ["m"]]) = true := by
  decide

/-- C8 (amended): on a keys/messages length mismatch the caller records
the warning; when the messages are at least as long as the keys, every
key position is processed and the extra messages are ignored (non-fatal);
but when the keys are longer, the call throws a TypeError upon reaching a
key position with no message (e.g. two distinct keys against one
message), so that shape is fatal rather than non-fatal. -/
theorem length_mismatch_behavior :
    (∀ (fileRelative : String) (ks : List NlsKey) (ms : List String),
        ks.length < ms.length →
        (importBundleJson fileRelative [BundleEntry.mk "vs/base/ui" ks ms]).map
            (fun p => p.1)
          = Except.ok ["There is a mismatch between keys and messages in " ++ fileRelative])
    ∧ (∀ k1 k2 m : String, k1 ≠ k2 →
        isErr (XLF.addFile (XLF.new "p") "f"
          [NlsKey.str k1, NlsKey.str k2] [m]) = true) := by
  constructor
  · intro fileRelative ks ms hlt
    have hne : ks.length ≠ ms.length := Nat.ne_of_lt hlt
    have hres : getResource "vs/base/ui"
        = Except.ok (Resource.mk "vs/base" "vscode-editor") := by decide
    obtain ⟨x', hx'⟩ := addFile_ok (XLF.new "vscode-editor") "vs/base/ui" ks ms
      (Nat.le_of_lt hlt)
    simp [importBundleJson, importBundleJsonGo, hres, hne, lookupAssoc, hx', Except.map]
  · intro k1 k2 m h
    have h2 : ¬ (k2 = k1) := Ne.symm h
    simp [XLF.addFile, addFileItems, addFileItemsGo, jsIndexOfStr, msgAt,
      encodeEntitiesJS, isErr, h, h2]

theorem length_mismatch_behavior_witness :
    (importBundleJson "f.json" [BundleEntry.mk "vs/base/ui" [NlsKey.str "a"] ["x", "y"]]).map
        (fun p => p.1)
      = Except.ok ["There is a mismatch between keys and messages in " ++ "f.json"]
    ∧ isErr (XLF.addFile (XLF.new "p") "f"
        [NlsKey.str "a", NlsKey.str "b"] ["m"]) = true :=
  ⟨length_mismatch_behavior.1 "f.json" [NlsKey.str "a"] ["x", "y"] (by decide),
   length_mismatch_behavior.2 "a" "b" "m" (by decide)⟩

theorem replaceFuel_nil (pat rep : List Char) (f : Nat) :
    replaceFuel pat rep f [] = [] := by
  cases f <;> rfl

theorem replaceFuel_nomatch (pat rep : List Char) (c : Char) (t : List Char) (n : Nat)
    (h : ¬ pat.isPrefixOf (c :: t) = true) :
    replaceFuel pat rep (n + 1) (c :: t) = c :: replaceFuel pat rep n t := by
  simp only [replaceFuel]
  rw [if_neg (fun hc => h hc.2)]

theorem replaceFuel_match (pat rep : List Char) (t : List Char) (n : Nat) (hp : pat ≠ []) :
    replaceFuel pat rep (n + 1) (pat ++ t) = rep ++ replaceFuel pat rep n t := by
  obtain ⟨p0, pr, rfl⟩ := List.exists_cons_of_ne_nil hp
  show replaceFuel (p0 :: pr) rep (n + 1) (p0 :: (pr ++ t)) = _
  simp only [replaceFuel]
  rw [if_pos ⟨by simp, List.isPrefixOf_iff_prefix.mpr ⟨t, by simp⟩⟩]
  simp only [List.length_cons, List.drop_succ_cons, List.drop_left]

theorem replaceFuel_safe (pat rep : List Char) (p0 : Char) (pr : List Char)
    (hpat : pat = p0 :: pr) (safe : List Char) (hsafe : ∀ c ∈ safe, c ≠ p0) :
    ∀ (t : List Char) (f : Nat), safe.length ≤ f →
      replaceFuel pat rep f (safe ++ t)
        = safe ++ replaceFuel pat rep (f - safe.length) t := by
  induction safe with
  | nil => intro t f _; simp
  | cons c cs ih =>
    intro t f hf
    cases f with
    | zero => exact absurd hf (by simp)
    | succ m =>
      rw [List.cons_append]
      have hc : ¬ (p0 = c) := fun he => (hsafe c (by simp)) he.symm
      rw [replaceFuel_nomatch _ _ _ _ _ (by simp [hpat, List.isPrefixOf, hc])]
      rw [ih (fun d hd => hsafe d (by simp [hd])) t m (by simpa using hf)]
      simp [Nat.succ_sub_succ]

theorem decode_pass1 (l : List Char) :
    ∀ f, (encodeChars l).length ≤ f →
      replaceFuel "&lt;".data "<".data f (encodeChars l) = g1Chars l := by
  induction l with
  | nil => intro f _; exact replaceFuel_nil _ _ _
  | cons c rest ih =>
    intro f hf
    by_cases h1 : c = '<'
    · subst h1
      have hEq : encodeChars ('<' :: rest) = "&lt;".data ++ encodeChars rest := rfl
      rw [hEq] at hf ⊢
      rw [List.length_append, show ("&lt;".data).length = 4 from rfl] at hf
      cases f with
      | zero => exact absurd hf (by omega)
      | succ m =>
        rw [replaceFuel_match _ _ _ _ (by decide)]
        rw [ih m (by omega)]
        rfl
    · by_cases h2 : c = '>'
      · subst h2
        have hEq : encodeChars ('>' :: rest)
            = '&' :: (['g', 't', ';'] ++ encodeChars rest) := rfl
        rw [hEq] at hf ⊢
        rw [show ('&' :: (['g', 't', ';'] ++ encodeChars rest)).length
            = 4 + (encodeChars rest).length from by simp [List.length_append]; omega] at hf
        cases f with
        | zero => exact absurd hf (by omega)
        | succ m =>
          rw [replaceFuel_nomatch _ _ _ _ _ (by simp [List.isPrefixOf])]
          rw [replaceFuel_safe "&lt;".data "<".data '&' ['l', 't', ';'] rfl
            ['g', 't', ';'] (by decide) (encodeChars rest) m (by show 3 ≤ m; omega)]
          rw [show (['g', 't', ';'] : List Char).length = 3 from rfl]
          rw [ih (m - 3) (by omega)]
          rfl
      · by_cases h3 : c = '&'
        · subst h3
          have hEq : encodeChars ('&' :: rest)
              = '&' :: (['a', 'm', 'p', ';'] ++ encodeChars rest) := rfl
          rw [hEq] at hf ⊢
          rw [show ('&' :: (['a', 'm', 'p', ';'] ++ encodeChars rest)).length
              = 5 + (encodeChars rest).length from by simp [List.length_append]; omega] at hf
          cases f with
          | zero => exact absurd hf (by omega)
          | succ m =>
            rw [replaceFuel_nomatch _ _ _ _ _ (by simp [List.isPrefixOf])]
            rw [replaceFuel_safe "&lt;".data "<".data '&' ['l', 't', ';'] rfl
              ['a', 'm', 'p', ';'] (by decide) (encodeChars rest) m (by show 4 ≤ m; omega)]
            rw [show (['a', 'm', 'p', ';'] : List Char).length = 4 from rfl]
            rw [ih (m - 4) (by omega)]
            rfl
        · have hEq : encodeChars (c :: rest) = [c] ++ encodeChars rest := by
            simp [encodeChars, h1, h2, h3]
          rw [hEq] at hf ⊢
          rw [List.length_append, show ([c] : List Char).length = 1 from rfl] at hf
          cases f with
          | zero => exact absurd hf (by omega)
          | succ m =>
            have hc : ¬ ('&' = c) := fun he => h3 he.symm
            rw [show ([c] ++ encodeChars rest : List Char) = c :: encodeChars rest from rfl]
            rw [replaceFuel_nomatch _ _ _ _ _ (by simp [List.isPrefixOf, hc])]
            rw [ih m (by omega)]
            simp [g1Chars, h1, h2, h3]

theorem decode_pass2 (l : List Char) :
    ∀ f, (g1Chars l).length ≤ f →
      replaceFuel "&gt;".data ">".data f (g1Chars l) = g2Chars l := by
  induction l with
  | nil => intro f _; exact replaceFuel_nil _ _ _
  | cons c rest ih =>
    intro f hf
    by_cases h1 : c = '<'
    · subst h1
      have hEq : g1Chars ('<' :: rest) = ['<'] ++ g1Chars rest := rfl
      rw [hEq] at hf ⊢
      rw [List.length_append, show (['<'] : List Char).length = 1 from rfl] at hf
      cases f with
      | zero => exact absurd hf (by omega)
      | succ m =>
        rw [show (['<'] ++ g1Chars rest : List Char) = '<' :: g1Chars rest from rfl]
        rw [replaceFuel_nomatch _ _ _ _ _ (by simp [List.isPrefixOf])]
        rw [ih m (by omega)]
        rfl
    · by_cases h2 : c = '>'
      · subst h2
        have hEq : g1Chars ('>' :: rest) = "&gt;".data ++ g1Chars rest := rfl
        rw [hEq] at hf ⊢
        rw [List.length_append, show ("&gt;".data).length = 4 from rfl] at hf
        cases f with
        | zero => exact absurd hf (by omega)
        | succ m =>
          rw [replaceFuel_match _ _ _ _ (by decide)]
          rw [ih m (by omega)]
          rfl
      · by_cases h3 : c = '&'
        · subst h3
          have hEq : g1Chars ('&' :: rest)
              = '&' :: (['a', 'm', 'p', ';'] ++ g1Chars rest) := rfl
          rw [hEq] at hf ⊢
          rw [show ('&' :: (['a', 'm', 'p', ';'] ++ g1Chars rest)).length
              = 5 + (g1Chars rest).length from by simp [List.length_append]; omega] at hf
          cases f with
          | zero => exact absurd hf (by omega)
          | succ m =>
            rw [replaceFuel_nomatch _ _ _ _ _ (by simp [List.isPrefixOf])]
            rw [replaceFuel_safe "&gt;".data ">".data '&' ['g', 't', ';'] rfl
              ['a', 'm', 'p', ';'] (by decide) (g1Chars rest) m (by show 4 ≤ m; omega)]
            rw [show (['a', 'm', 'p', ';'] : List Char).length = 4 from rfl]
            rw [ih (m - 4) (by omega)]
            rfl
        · have hEq : g1Chars (c :: rest) = [c] ++ g1Chars rest := by
            simp [g1Chars, h1, h2, h3]
          rw [hEq] at hf ⊢
          rw [List.length_append, show ([c] : List Char).length = 1 from rfl] at hf
          cases f with
          | zero => exact absurd hf (by omega)
          | succ m =>
            have hc : ¬ ('&' = c) := fun he => h3 he.symm
            rw [show ([c] ++ g1Chars rest : List Char) = c :: g1Chars rest from rfl]
            rw [replaceFuel_nomatch _ _ _ _ _ (by simp [List.isPrefixOf, hc])]
            rw [ih m (by omega)]
            simp [g2Chars, h3]

theorem decode_pass3 (l : List Char) :
    ∀ f, (g2Chars l).length ≤ f →
      replaceFuel "&amp;".data "&".data f (g2Chars l) = l := by
  induction l with
  | nil => intro f _; exact replaceFuel_nil _ _ _
  | cons c rest ih =>
    intro f hf
    by_cases h1 : c = '&'
    · subst h1
      have hEq : g2Chars ('&' :: rest) = "&amp;".data ++ g2Chars rest := rfl
      rw [hEq] at hf ⊢
      rw [List.length_append, show ("&amp;".data).length = 5 from rfl] at hf
      cases f with
      | zero => exact absurd hf (by omega)
      | succ m =>
        rw [replaceFuel_match _ _ _ _ (by decide)]
        rw [ih m (by omega)]
        rfl
    · have hEq : g2Chars (c :: rest) = [c] ++ g2Chars rest := by
        simp [g2Chars, h1]
      rw [hEq] at hf ⊢
      rw [List.length_append, show ([c] : List Char).length = 1 from rfl] at hf
      cases f with
      | zero => exact absurd hf (by omega)
      | succ m =>
        have hc : ¬ ('&' = c) := fun he => h1 he.symm
        rw [show ([c] ++ g2Chars rest : List Char) = c :: g2Chars rest from rfl]
        rw [replaceFuel_nomatch _ _ _ _ _ (by simp [List.isPrefixOf, hc])]
        rw [ih m (by omega)]

theorem encodeChars_no_angle (l : List Char) :
    (encodeChars l).all (fun c => decide (c ≠ '<' ∧ c ≠ '>')) = true := by
  induction l with
  | nil => rfl
  | cons c rest ih =>
    by_cases h1 : c = '<'
    · subst h1; simpa [encodeChars, List.all_append] using ih
    · by_cases h2 : c = '>'
      · subst h2; simpa [encodeChars, List.all_append] using ih
      · by_cases h3 : c = '&'
        · subst h3; simpa [encodeChars, List.all_append] using ih
        · have hEq : encodeChars (c :: rest) = [c] ++ encodeChars rest := by
            simp [encodeChars, h1, h2, h3]
          rw [hEq, List.all_append, ih]
          simp [h1, h2, h3]

/-- C10 counterexample: the escaper handles only three characters — the
double quote, the fourth XML-special character, is left untouched by both
`encodeEntities` and `decodeEntities`, so not every occurrence of each of
the four XML-special characters is replaced by its entity. -/
theorem entity_escaper_counterexample :
    encodeEntities "\x22" = "\x22" ∧ decodeEntities "&quot;" = "&quot;"
    ∧ ("\x22" : String) ≠ "&quot;" := by
  decide

/-- C10 (amended): the escaper escapes, and its inverse unescapes, the
THREE XML-special characters `<`, `>` and `&`: each maps to its entity,
an encoded string contains no raw `<` or `>` at all, and decoding the
encoding of any string restores it exactly.  The double quote (and
apostrophe) are not escaped. -/
theorem entity_escaper_three_chars :
    encodeEntities "<" = "&lt;" ∧ encodeEntities ">" = "&gt;"
    ∧ encodeEntities "&" = "&amp;"
    ∧ (∀ s : String,
        (encodeEntities s).data.all (fun c => decide (c ≠ '<' ∧ c ≠ '>')) = true)
    ∧ (∀ s : String, decodeEntities (encodeEntities s) = s) := by
  refine ⟨by decide, by decide, by decide, ?_, ?_⟩
  · intro s
    exact encodeChars_no_angle s.data
  · intro s
    show jsReplaceAll (jsReplaceAll (jsReplaceAll (encodeEntities s) "&lt;" "<")
      "&gt;" ">") "&amp;" "&" = s
    rw [show jsReplaceAll (encodeEntities s) "&lt;" "<" = String.mk (g1Chars s.data) from by
      show String.mk (replaceFuel "&lt;".data "<".data
        (encodeChars s.data).length (encodeChars s.data)) = _
      rw [decode_pass1 s.data _ (le_refl _)]]
    rw [show jsReplaceAll (String.mk (g1Chars s.data)) "&gt;" ">"
        = String.mk (g2Chars s.data) from by
      show String.mk (replaceFuel "&gt;".data ">".data
        (g1Chars s.data).length (g1Chars s.data)) = _
      rw [decode_pass2 s.data _ (le_refl _)]]
    show String.mk (replaceFuel "&amp;".data "&".data
      (g2Chars s.data).length (g2Chars s.data)) = s
    rw [decode_pass3 s.data _ (le_refl _)]

theorem isErr_parseTransUnits (units : List TransUnitNode) :
    ∀ msgs, isErr (parseTransUnits msgs units) = units.any unitRejectB := by
  induction units with
  | nil => intro msgs; rfl
  | cons u rest ih =>
    intro msgs
    cases ht : u.target with
    | none => simp [parseTransUnits, ht, unitRejectB, ih msgs]
    | some val =>
      cases hid : u.id with
      | none => simp [parseTransUnits, ht, hid, unitRejectB, jsFalsyOpt, isErr]
      | some k =>
        by_cases hk : k = ""
        · simp [parseTransUnits, ht, hid, hk, unitRejectB, jsFalsyOpt, isErr]
        · by_cases hv : val = ""
          · simp [parseTransUnits, ht, hid, hk, hv, unitRejectB, jsFalsyOpt, isErr]
          · simp [parseTransUnits, ht, hid, hk, hv, unitRejectB, jsFalsyOpt, ih]

theorem isErr_parseFileNode (f : FileNode) : isErr (parseFileNode f) = fileRejectB f := by
  by_cases ho : jsFalsyOpt f.original
  · simp [parseFileNode, fileRejectB, ho, isErr]
  · cases htl : f.targetLanguage with
    | none => simp [parseFileNode, fileRejectB, ho, htl, isErr]
    | some tl =>
      by_cases hl : jsToLowerCase tl = ""
      · simp [parseFileNode, fileRejectB, ho, htl, hl, isErr]
      · cases htu : f.transUnits with
        | none => simp [parseFileNode, fileRejectB, ho, htl, hl, htu, isErr]
        | some units =>
          have hchar := isErr_parseTransUnits units []
          have hfr : fileRejectB f = units.any unitRejectB := by
            simp [fileRejectB, ho, htl, hl, htu]
          rw [hfr, ← hchar]
          cases hp : parseTransUnits [] units <;>
            simp [parseFileNode, ho, htl, hl, htu, hp, isErr]

theorem isErr_parseFileNodes (fs : List FileNode) :
    isErr (parseFileNodes fs) = fs.any (fun f => isErr (parseFileNode f)) := by
  induction fs with
  | nil => rfl
  | cons f rest ih =>
    cases hp : parseFileNode f with
    | error e => simp [parseFileNodes, hp, isErr]
    | ok pf =>
      rw [List.any_cons]
      rw [hp]
      cases hr : parseFileNodes rest with
      | error e =>
        rw [← ih, hr]
        simp [parseFileNodes, hp, hr, isErr]
      | ok pfs =>
        rw [← ih, hr]
        simp [parseFileNodes, hp, hr, isErr]

/-- C6 counterexample: a file node with `original` and `target-language`
present whose single trans-unit HAS a target (`"hello"`) but lacks an id
is rejected by the code, while none of the claim's five listed reject
conditions holds for it. -/
theorem parse_reject_claim_counterexample :
    claimRejectB (XmlInput.parsed (some [FileNode.mk (some "f") (some "fr")
        (some [TransUnitNode.mk none (some "hello")])])) = false
    ∧ isErr (XLF.parse (XmlInput.parsed (some [FileNode.mk (some "f") (some "fr")
        (some [TransUnitNode.mk none (some "hello")])]))) = true := by
  decide

/-- C6 (amended): a trans-unit lacking a target element is silently
skipped (removing it from the unit list does not change the parse), and
the parse fails exactly when: the XML is unparseable; `xliff.file` nodes
are absent; a file node has an absent-or-empty `original`; its
`target-language` is absent (TypeError) or lower-cases to empty; its body
carries no trans-unit collection (TypeError); or some trans-unit has a
present target together with an absent-or-empty id or an empty
stringified target value. -/
theorem parse_reject_characterization :
    (∀ inp : XmlInput, isErr (XLF.parse inp) = xlfRejectB inp)
    ∧ (∀ (msgs : List (String × String)) (us1 us2 : List TransUnitNode)
         (u : TransUnitNode), u.target = none →
        parseTransUnits msgs (us1 ++ u :: us2) = parseTransUnits msgs (us1 ++ us2)) := by
  constructor
  · intro inp
    cases inp with
    | parseFailure err => rfl
    | parsed fileNodes =>
      cases fileNodes with
      | none => rfl
      | some fs =>
        show isErr (parseFileNodes fs) = fs.any fileRejectB
        rw [isErr_parseFileNodes]
        simp [isErr_parseFileNode]
  · intro msgs us1 us2 u hu
    induction us1 generalizing msgs with
    | nil => simp [parseTransUnits, hu]
    | cons v us1' ih =>
      cases hvt : v.target with
      | none => simpa [parseTransUnits, hvt] using ih msgs
      | some val =>
        cases hvi : v.id with
        | none => simp [parseTransUnits, hvt, hvi]
        | some k =>
          by_cases hcond : k ≠ "" ∧ val ≠ ""
          · simp [parseTransUnits, hvt, hvi, hcond, ih]
          · simp [parseTransUnits, hvt, hvi, hcond]

theorem parse_reject_characterization_witness :
    isErr (XLF.parse (XmlInput.parsed none)) = xlfRejectB (XmlInput.parsed none)
    ∧ parseTransUnits []
        ([TransUnitNode.mk (some "a") (some "v")] ++ TransUnitNode.mk (some "b") none :: [])
      = parseTransUnits [] ([TransUnitNode.mk (some "a") (some "v")] ++ []) :=
  ⟨parse_reject_characterization.1 (XmlInput.parsed none),
   parse_reject_characterization.2 [] [TransUnitNode.mk (some "a") (some "v")] []
     (TransUnitNode.mk (some "b") none) rfl⟩

theorem addFile_duplicate_key_law_witness :
    XLF.addFile (XLF.new "p") "f" [NlsKey.str "k", NlsKey.str "k"] ["m1", "m2"]
      = Except.ok (XLF.mk "p" [] (setAssoc [] "f" [Item.mk "k" (encodeEntities "m1") none]))
    ∧ ∃ items, addFileItems (["a", "a", "b"].map NlsKey.str) ["x", "y", "z"] = Except.ok items
        ∧ items.map Item.id = dedupFirst ["a", "a", "b"] :=
  ⟨addFile_duplicate_key_law.1 (XLF.new "p") "f" "k" "m1" "m2",
   addFile_duplicate_key_law.2 ["a", "a", "b"] ["x", "y", "z"] (by decide)⟩
